import Mathlib

/-!
Verification of the ledger calculator (`src/cli.py`) against its
natural-language specification.

The embedding translates the core classes of the source:
* `SimpleInterestRateStrategy.calculate`  — the pluggable interest formula;
* `Advance`                               — one cash advance's state machine;
* `UserGlobalBalance`                     — the engine owning the advances and
                                            the future-payment credit.

Python `Decimal` values are modelled as exact rationals (`ℚ`); calendar dates
(midnight `datetime`s in the source) are modelled as integers counting days,
so that `date2 - date1` in whole days is plain integer subtraction, matching
`(date2 - date1).days` on midnight datetimes.  The in-place mutation of the
Python objects is modelled by explicit state passing: each operation returns
the updated record (together with the value the Python method returns).
-/

namespace Ledger

/-- The fixed per-day rate the engine passes to every strategy instance
(`SimpleInterestRateStrategy(Decimal("0.00035"))` in `create_advance`). -/
def dailyRate : ℚ := 35 / 100000

/-- `SimpleInterestRateStrategy.calculate`: the source computes
`(amount * (Decimal("1") + self.daily_interest * days)) - amount`. -/
def SimpleInterestRateStrategy.calculate (daily_interest amount days : ℚ) : ℚ :=
  (amount * (1 + daily_interest * days)) - amount

/-- Per-advance state, mirroring the fields of the Python `Advance` class
(the strategy field is specialised to the engine's fixed `dailyRate`). -/
@[ext] structure Advance where
  identifier : Nat
  created_at : Int
  updated_at : Int
  initial_amount : ℚ
  balance : ℚ
  interest_payable_balance : ℚ
  interest_paid : ℚ
deriving DecidableEq

/-- The record `Advance.get_statement` returns. -/
@[ext] structure AdvanceStatement where
  identifier : Nat
  created_at : Int
  initial_amount : ℚ
  balance : ℚ
  interest_payable_balance : ℚ
  interest_paid : ℚ
deriving DecidableEq

namespace Advance

/-- `Advance.calculate_interest_payable_balance`:
`interest_period = date - self._updated_at`, add
`strategy.calculate(self._balance, interest_period.days)` to the payable
balance, and set `updated_at := date`.  The source performs no check on the
sign of the elapsed period. -/
def calculate_interest_payable_balance (a : Advance) (date : Int) : Advance :=
  { a with
    interest_payable_balance := a.interest_payable_balance +
      SimpleInterestRateStrategy.calculate dailyRate a.balance
        ((date - a.updated_at : Int) : ℚ)
    updated_at := date }

/-- `Advance.get_statement`: accrue through `date + timedelta(days=1)`,
then read the fields. -/
def get_statement (a : Advance) (date : Int) : Advance × AdvanceStatement :=
  let b := a.calculate_interest_payable_balance (date + 1)
  (b, ⟨b.identifier, b.created_at, b.initial_amount, b.balance,
       b.interest_payable_balance, b.interest_paid⟩)

/-- `Advance.pay`: pay principal, return the remaining amount. -/
def pay (a : Advance) (amount : ℚ) : Advance × ℚ :=
  if amount ≤ a.balance then ({ a with balance := a.balance - amount }, 0)
  else ({ a with balance := 0 }, amount - a.balance)

/-- `Advance.pay_interest`: accrue through `paid_date`, then pay interest and
return the remaining amount. -/
def pay_interest (a : Advance) (amount : ℚ) (paid_date : Int) : Advance × ℚ :=
  let b := a.calculate_interest_payable_balance paid_date
  if amount ≤ b.interest_payable_balance then
    ({ b with
        interest_payable_balance := b.interest_payable_balance - amount
        interest_paid := b.interest_paid + amount }, 0)
  else
    ({ b with
        interest_paid := b.interest_paid + b.interest_payable_balance
        interest_payable_balance := 0 }, amount - b.interest_payable_balance)

end Advance

/-- Engine state: the unallocated future-payment credit and the advances in
creation order (`UserGlobalBalance.__init__`). -/
@[ext] structure UserGlobalBalance where
  overall_payments_for_future : ℚ
  actives_advances : List Advance
deriving DecidableEq

/-- The record `UserGlobalBalance.get_global_statement` returns. -/
@[ext] structure GlobalStatement where
  overall_payments_for_future : ℚ
  overall_advance_balance : ℚ
  overall_interest_payable_balance : ℚ
  overall_interest_paid : ℚ
  individual_advance_statement : List AdvanceStatement
deriving DecidableEq

/-- The interest phase of `UserGlobalBalance.pay_advance`: the `for` loop
calling `pay_interest` on each advance in order, breaking as soon as the
running amount equals zero. -/
def payInterestLoop (l : List Advance) (amount : ℚ) (paid_date : Int) :
    List Advance × ℚ :=
  match l with
  | [] => ([], amount)
  | a :: rest =>
    let p := a.pay_interest amount paid_date
    if p.2 = 0 then (p.1 :: rest, p.2)
    else
      let q := payInterestLoop rest p.2 paid_date
      (p.1 :: q.1, q.2)

/-- The principal phase of `UserGlobalBalance.pay_advance`: the `for` loop
calling `pay` on each advance in order, breaking at zero. -/
def payLoop (l : List Advance) (amount : ℚ) : List Advance × ℚ :=
  match l with
  | [] => ([], amount)
  | a :: rest =>
    let p := a.pay amount
    if p.2 = 0 then (p.1 :: rest, p.2)
    else
      let q := payLoop rest p.2
      (p.1 :: q.1, q.2)

namespace UserGlobalBalance

/-- `UserGlobalBalance.__init__`. -/
def initial : UserGlobalBalance := ⟨0, []⟩

/-- `UserGlobalBalance.pay_advance`: interest phase over all advances, then —
if an amount remains — the principal phase, then — if an amount still
remains — add it to `overall_payments_for_future`. -/
def pay_advance (u : UserGlobalBalance) (amount : ℚ) (date : Int) :
    UserGlobalBalance :=
  let p := payInterestLoop u.actives_advances amount date
  let q := if p.2 > 0 then payLoop p.1 p.2 else p
  if q.2 > 0 then ⟨u.overall_payments_for_future + q.2, q.1⟩
  else ⟨u.overall_payments_for_future, q.1⟩

/-- `UserGlobalBalance.create_advance`: append a fresh advance (next
sequential identifier, `created_at = updated_at = create_date`, balance =
initial amount), then, if a positive future credit is held, zero it and pay
it back in through `pay_advance` at the creation date. -/
def create_advance (u : UserGlobalBalance) (balance : ℚ) (create_date : Int) :
    UserGlobalBalance :=
  let u1 : UserGlobalBalance :=
    ⟨u.overall_payments_for_future,
     u.actives_advances ++
       [⟨u.actives_advances.length + 1, create_date, create_date, balance,
         balance, 0, 0⟩]⟩
  if u1.overall_payments_for_future > 0 then
    pay_advance ⟨0, u1.actives_advances⟩ u1.overall_payments_for_future
      create_date
  else u1

/-- `UserGlobalBalance.get_global_statement`: run `get_statement` on every
advance (this mutates each advance — the first component is the resulting
engine state), summing the per-advance figures. -/
def get_global_statement (u : UserGlobalBalance) (end_date : Int) :
    UserGlobalBalance × GlobalStatement :=
  let results := u.actives_advances.map (fun adv => adv.get_statement end_date)
  (⟨u.overall_payments_for_future, results.map Prod.fst⟩,
   ⟨u.overall_payments_for_future,
    (results.map (fun r => r.2.balance)).sum,
    (results.map (fun r => r.2.interest_payable_balance)).sum,
    (results.map (fun r => r.2.interest_paid)).sum,
    results.map Prod.snd⟩)

end UserGlobalBalance

/-- Engine states reachable from a fresh engine by advance events, payment
events (positive amounts) and statement queries, fed in non-decreasing date
order — the replay contract of the `balances` command.  `Reachable u d` says
`u` can arise with `d` the date of the latest operation applied. -/
inductive Reachable : UserGlobalBalance → Int → Prop
  | init (d : Int) : Reachable UserGlobalBalance.initial d
  | adv {u : UserGlobalBalance} {d : Int} (a : ℚ) (e : Int) :
      Reachable u d → 0 < a → d ≤ e → Reachable (u.create_advance a e) e
  | pay {u : UserGlobalBalance} {d : Int} (a : ℚ) (e : Int) :
      Reachable u d → 0 < a → d ≤ e → Reachable (u.pay_advance a e) e
  | stmt {u : UserGlobalBalance} {d : Int} (e : Int) :
      Reachable u d → d ≤ e → Reachable (u.get_global_statement e).1 e

/-- Default advance used with `List.getD` when stating positional facts. -/
def dAdv : Advance := ⟨0, 0, 0, 0, 0, 0, 0⟩

/-! ### Basic facts about the interest formula and single-advance operations -/

lemma dailyRate_nonneg : (0 : ℚ) ≤ dailyRate := by norm_num [dailyRate]

lemma dailyRate_pos : (0 : ℚ) < dailyRate := by norm_num [dailyRate]

lemma calculate_eq (r b n : ℚ) :
    SimpleInterestRateStrategy.calculate r b n = b * r * n := by
  unfold SimpleInterestRateStrategy.calculate; ring

namespace Advance

@[simp] lemma calc_identifier (a : Advance) (d : Int) :
    (a.calculate_interest_payable_balance d).identifier = a.identifier := rfl

@[simp] lemma calc_created (a : Advance) (d : Int) :
    (a.calculate_interest_payable_balance d).created_at = a.created_at := rfl

@[simp] lemma calc_updated (a : Advance) (d : Int) :
    (a.calculate_interest_payable_balance d).updated_at = d := rfl

@[simp] lemma calc_initial (a : Advance) (d : Int) :
    (a.calculate_interest_payable_balance d).initial_amount = a.initial_amount := rfl

@[simp] lemma calc_balance (a : Advance) (d : Int) :
    (a.calculate_interest_payable_balance d).balance = a.balance := rfl

@[simp] lemma calc_paid (a : Advance) (d : Int) :
    (a.calculate_interest_payable_balance d).interest_paid = a.interest_paid := rfl

lemma calc_ipb (a : Advance) (d : Int) :
    (a.calculate_interest_payable_balance d).interest_payable_balance =
      a.interest_payable_balance +
        a.balance * dailyRate * ((d - a.updated_at : Int) : ℚ) := by
  simp [calculate_interest_payable_balance, calculate_eq]

/-- Accrual is additive over adjacent periods: accruing through `d1` and then
through `d2` is the same state as accruing directly through `d2` (the balance
is unchanged by accrual, so the two interest increments sum to the direct
one). -/
lemma calc_chain (a : Advance) (d1 d2 : Int) :
    (a.calculate_interest_payable_balance d1).calculate_interest_payable_balance d2 =
      a.calculate_interest_payable_balance d2 := by
  ext
  · rfl
  · rfl
  · simp
  · rfl
  · rfl
  · simp only [calc_ipb, calc_balance, calc_updated]
    push_cast
    ring
  · rfl

/-- `pay_interest` accrues first: in both branches the resulting advance has
`updated_at = paid_date`. -/
lemma pay_interest_updated (a : Advance) (amt : ℚ) (d : Int) :
    (a.pay_interest amt d).1.updated_at = d := by
  simp only [pay_interest]
  split_ifs <;> rfl

lemma pay_interest_balance (a : Advance) (amt : ℚ) (d : Int) :
    (a.pay_interest amt d).1.balance = a.balance := by
  simp only [pay_interest]
  split_ifs <;> rfl

lemma pay_interest_identifier (a : Advance) (amt : ℚ) (d : Int) :
    (a.pay_interest amt d).1.identifier = a.identifier := by
  simp only [pay_interest]
  split_ifs <;> rfl

lemma pay_interest_created (a : Advance) (amt : ℚ) (d : Int) :
    (a.pay_interest amt d).1.created_at = a.created_at := by
  simp only [pay_interest]
  split_ifs <;> rfl

lemma pay_interest_initial (a : Advance) (amt : ℚ) (d : Int) :
    (a.pay_interest amt d).1.initial_amount = a.initial_amount := by
  simp only [pay_interest]
  split_ifs <;> rfl

/-- When `pay_interest` returns a nonzero remainder it has taken the
overflow branch, which zeroes the payable balance. -/
lemma pay_interest_rem_ne (a : Advance) (amt : ℚ) (d : Int)
    (h : (a.pay_interest amt d).2 ≠ 0) :
    (a.pay_interest amt d).1.interest_payable_balance = 0 := by
  simp only [pay_interest] at *
  split_ifs at * with hc
  · simp at h
  · rfl

/-- A zero-amount `pay_interest` with a nonnegative accrued balance takes the
first branch: it only accrues, and returns 0. -/
lemma pay_interest_zero_amount (a : Advance) (d : Int)
    (h : 0 ≤ (a.calculate_interest_payable_balance d).interest_payable_balance) :
    a.pay_interest 0 d = (a.calculate_interest_payable_balance d, 0) := by
  simp only [pay_interest]
  rw [if_pos h]
  simp only [sub_zero, add_zero]

lemma pay_fst_ipb (a : Advance) (amt : ℚ) :
    (a.pay amt).1.interest_payable_balance = a.interest_payable_balance := by
  simp only [pay]; split_ifs <;> rfl

lemma pay_fst_paid (a : Advance) (amt : ℚ) :
    (a.pay amt).1.interest_paid = a.interest_paid := by
  simp only [pay]; split_ifs <;> rfl

lemma pay_fst_updated (a : Advance) (amt : ℚ) :
    (a.pay amt).1.updated_at = a.updated_at := by
  simp only [pay]; split_ifs <;> rfl

/-- When `pay` returns a nonzero remainder it has zeroed the principal. -/
lemma pay_rem_ne (a : Advance) (amt : ℚ) (h : (a.pay amt).2 ≠ 0) :
    (a.pay amt).1.balance = 0 := by
  simp only [pay] at *
  split_ifs at * with hc
  · simp at h
  · rfl

end Advance

/-! ### Claims about the single-advance operations -/

/-- C8: the implementation's interest expression
`(p * (1 + rate * n)) - p` equals the reference formula `p * rate * n`
exactly, with no rounding artifact, for every principal `p ≥ 0` and elapsed
day count `n ≥ 0` (exact rational arithmetic models the exact-decimal core
mandated by the spec). -/
theorem simple_interest_exact (p n : ℚ) (hp : 0 ≤ p) (hn : 0 ≤ n) :
    SimpleInterestRateStrategy.calculate dailyRate p n = p * dailyRate * n := by
  unfold SimpleInterestRateStrategy.calculate; ring

/-- Witness for C8 at `p = 1000`, `n = 14`. -/
theorem simple_interest_exact_witness :
    SimpleInterestRateStrategy.calculate dailyRate 1000 14 =
      1000 * dailyRate * 14 :=
  simple_interest_exact 1000 14 (by norm_num) (by norm_num)

/-- C9: `pay` (the principal payment) modifies `balance` only — the interest
fields, dates, initial amount and identifier are untouched and no accrual is
triggered — and it returns 0 after decrementing the balance by `a` when
`a ≤ balance`, otherwise it zeroes the balance and returns the excess. -/
theorem pay_principal_frame (adv : Advance) (a : ℚ) (h : 0 ≤ a) :
    ((adv.pay a).1.interest_payable_balance = adv.interest_payable_balance ∧
     (adv.pay a).1.interest_paid = adv.interest_paid ∧
     (adv.pay a).1.updated_at = adv.updated_at ∧
     (adv.pay a).1.created_at = adv.created_at ∧
     (adv.pay a).1.initial_amount = adv.initial_amount ∧
     (adv.pay a).1.identifier = adv.identifier) ∧
    (a ≤ adv.balance → (adv.pay a).1.balance = adv.balance - a ∧ (adv.pay a).2 = 0) ∧
    (adv.balance < a → (adv.pay a).1.balance = 0 ∧ (adv.pay a).2 = a - adv.balance) := by
  unfold Advance.pay
  split_ifs with hle
  · exact ⟨⟨rfl, rfl, rfl, rfl, rfl, rfl⟩, fun _ => ⟨rfl, rfl⟩,
      fun hlt => absurd hle (not_le.mpr hlt)⟩
  · exact ⟨⟨rfl, rfl, rfl, rfl, rfl, rfl⟩, fun hle2 => absurd hle2 hle,
      fun _ => ⟨rfl, rfl⟩⟩

/-- Witness for C9 at a concrete advance and amount. -/
theorem pay_principal_frame_witness :
    (((⟨1, 0, 0, 1000, 600, 2, 3⟩ : Advance).pay 100).1.interest_payable_balance = 2 ∧
     ((⟨1, 0, 0, 1000, 600, 2, 3⟩ : Advance).pay 100).1.interest_paid = 3 ∧
     ((⟨1, 0, 0, 1000, 600, 2, 3⟩ : Advance).pay 100).1.updated_at = 0 ∧
     ((⟨1, 0, 0, 1000, 600, 2, 3⟩ : Advance).pay 100).1.created_at = 0 ∧
     ((⟨1, 0, 0, 1000, 600, 2, 3⟩ : Advance).pay 100).1.initial_amount = 1000 ∧
     ((⟨1, 0, 0, 1000, 600, 2, 3⟩ : Advance).pay 100).1.identifier = 1) ∧
    ((⟨1, 0, 0, 1000, 600, 2, 3⟩ : Advance).pay 100).1.balance = 600 - 100 ∧
    ((⟨1, 0, 0, 1000, 600, 2, 3⟩ : Advance).pay 100).2 = 0 := by
  have h := pay_principal_frame ⟨1, 0, 0, 1000, 600, 2, 3⟩ 100 (by norm_num)
  exact ⟨h.1, h.2.1 (by norm_num)⟩

/-- C7: `statement_as_of` is idempotent — calling `get_statement` twice in a
row with the same date yields the same report both times, and the advance
state after the second call equals the state after the first (the second
accrual covers zero elapsed days). -/
theorem statement_idempotent (adv : Advance) (d : Int)
    (h : adv.updated_at ≤ d + 1) :
    ((adv.get_statement d).1.get_statement d).2 = (adv.get_statement d).2 ∧
    ((adv.get_statement d).1.get_statement d).1 = (adv.get_statement d).1 := by
  simp [Advance.get_statement, Advance.calc_chain]

/-- Witness for C7 at a concrete advance and date. -/
theorem statement_idempotent_witness :
    (((⟨1, 0, 0, 1000, 1000, 0, 0⟩ : Advance).get_statement 9).1.get_statement 9).2 =
      ((⟨1, 0, 0, 1000, 1000, 0, 0⟩ : Advance).get_statement 9).2 ∧
    (((⟨1, 0, 0, 1000, 1000, 0, 0⟩ : Advance).get_statement 9).1.get_statement 9).1 =
      ((⟨1, 0, 0, 1000, 1000, 0, 0⟩ : Advance).get_statement 9).1 :=
  statement_idempotent ⟨1, 0, 0, 1000, 1000, 0, 0⟩ 9 (by norm_num)

/-- C4 counterexample: the claim says a date strictly earlier than
`updated_at` makes the accrual step report an error rather than proceed with
a negative elapsed period.  In the code there is no check at all: with
`updated_at = 5`, accruing through date 3 succeeds and proceeds with
elapsed = −2 days, adding `1000 × 0.00035 × (−2) = −0.70` of interest. -/
theorem accrual_out_of_order_counterexample :
    ((⟨1, 0, 5, 1000, 1000, 0, 0⟩ : Advance).calculate_interest_payable_balance 3) =
      ⟨1, 0, 3, 1000, 1000, -7/10, 0⟩ := by
  norm_num [Advance.calculate_interest_payable_balance,
    SimpleInterestRateStrategy.calculate, dailyRate]

/-- C4 (amended): feeding the accrual step a date strictly earlier than
`updated_at` is not rejected — the code proceeds with the negative elapsed
day count `date − updated_at`, adding `balance × rate × elapsed` (strictly
decreasing `interest_payable_balance` whenever `balance > 0`); a date exactly
equal to `updated_at` adds exactly zero interest. -/
theorem accrual_out_of_order (a : Advance) (d : Int) (hb : 0 < a.balance) :
    (d < a.updated_at →
      (a.calculate_interest_payable_balance d).interest_payable_balance =
        a.interest_payable_balance +
          a.balance * dailyRate * ((d - a.updated_at : Int) : ℚ) ∧
      (a.calculate_interest_payable_balance d).interest_payable_balance <
        a.interest_payable_balance) ∧
    (a.calculate_interest_payable_balance a.updated_at).interest_payable_balance =
      a.interest_payable_balance := by
  constructor
  · intro hlt
    refine ⟨Advance.calc_ipb a d, ?_⟩
    rw [Advance.calc_ipb]
    have hc : ((d - a.updated_at : ℤ) : ℚ) < 0 := by
      exact_mod_cast sub_neg.mpr hlt
    have := mul_neg_of_pos_of_neg (mul_pos hb dailyRate_pos) hc
    linarith
  · rw [Advance.calc_ipb]
    simp

/-- Witness for C4's amended theorem at a concrete advance: date 3 against
`updated_at = 5` strictly decreases the payable interest; date 5 leaves it
unchanged. -/
theorem accrual_out_of_order_witness :
    ((⟨1, 0, 5, 1000, 1000, 0, 0⟩ : Advance).calculate_interest_payable_balance 3).interest_payable_balance <
      (⟨1, 0, 5, 1000, 1000, 0, 0⟩ : Advance).interest_payable_balance ∧
    ((⟨1, 0, 5, 1000, 1000, 0, 0⟩ : Advance).calculate_interest_payable_balance 5).interest_payable_balance =
      (⟨1, 0, 5, 1000, 1000, 0, 0⟩ : Advance).interest_payable_balance :=
  ⟨((accrual_out_of_order ⟨1, 0, 5, 1000, 1000, 0, 0⟩ 3 (by norm_num)).1 (by decide)).2,
   (accrual_out_of_order ⟨1, 0, 5, 1000, 1000, 0, 0⟩ 5 (by norm_num)).2⟩

/-- C5: Scenario B.  An advance of 1000.00 on 2021-01-01 (day 737791 in
proleptic ordinal days) followed by a payment of 500.00 on 2021-01-15
(day 737805, elapsed 14 days) yields owed interest 4.90; after the payment
`interest_paid = 4.90`, `interest_payable_balance = 0`,
`principal balance = 504.90` and the future credit stays 0. -/
theorem scenario_b_payment :
    UserGlobalBalance.pay_advance
        (UserGlobalBalance.create_advance UserGlobalBalance.initial 1000 737791)
        500 737805 =
      ⟨0, [⟨1, 737791, 737805, 1000, 5049/10, 0, 49/10⟩]⟩ := by
  norm_num [UserGlobalBalance.pay_advance, UserGlobalBalance.create_advance,
    payInterestLoop, payLoop, Advance.pay_interest, Advance.pay,
    Advance.calculate_interest_payable_balance,
    SimpleInterestRateStrategy.calculate, dailyRate, UserGlobalBalance.initial]

/-- C6: `get_statement` accrues interest through the query date shifted
forward by exactly one day before reading the fields; in particular for a
single advance of 1000.00 created 2021-01-01 (day 737791) at rate 0.00035,
the statement as of 2021-01-10 (day 737800) reports
`interest_payable_balance = 3.50` (elapsed 10 days) and balance 1000. -/
theorem statement_plus_one_day (adv : Advance) (d : Int)
    (h : adv.updated_at ≤ d + 1) :
    ((adv.get_statement d).2.interest_payable_balance =
      adv.interest_payable_balance +
        adv.balance * dailyRate * ((d + 1 - adv.updated_at : Int) : ℚ)) ∧
    ((UserGlobalBalance.get_global_statement
        (UserGlobalBalance.create_advance UserGlobalBalance.initial 1000 737791)
        737800).2.individual_advance_statement =
      [⟨1, 737791, 1000, 1000, 7/2, 0⟩]) := by
  constructor
  · exact Advance.calc_ipb adv (d + 1)
  · norm_num [UserGlobalBalance.get_global_statement,
      UserGlobalBalance.create_advance, Advance.get_statement,
      Advance.calculate_interest_payable_balance,
      SimpleInterestRateStrategy.calculate, dailyRate, UserGlobalBalance.initial]

/-- Witness for C6 at the Scenario A advance. -/
theorem statement_plus_one_day_witness :
    ((⟨1, 737791, 737791, 1000, 1000, 0, 0⟩ : Advance).get_statement
        737800).2.interest_payable_balance = 7/2 := by
  have h := (statement_plus_one_day ⟨1, 737791, 737791, 1000, 1000, 0, 0⟩
    737800 (by decide)).1
  rw [h]
  norm_num [dailyRate]

/-- A zero-amount payment against a nonempty advance list only accrues the
first advance (the loop calls `pay_interest` on it before checking for the
break) and changes nothing else. -/
lemma pay_advance_zero_amount (fc : ℚ) (a : Advance) (rest : List Advance)
    (d : Int)
    (hnn : 0 ≤ (a.calculate_interest_payable_balance d).interest_payable_balance) :
    UserGlobalBalance.pay_advance ⟨fc, a :: rest⟩ 0 d =
      ⟨fc, a.calculate_interest_payable_balance d :: rest⟩ := by
  unfold UserGlobalBalance.pay_advance
  simp only [payInterestLoop, Advance.pay_interest_zero_amount a d hnn]
  norm_num

/-- C10: accrual is additive over adjacent periods — accruing through `d1`
and then through `d2` equals accruing directly through `d2` — and hence an
intermediate zero-amount payment (which accrues the first advance without
changing any balance) does not alter the final statement. -/
theorem accrual_additive (u : UserGlobalBalance) (a : Advance)
    (rest : List Advance) (d1 d2 : Int) (hu : u.actives_advances = a :: rest)
    (h0 : a.updated_at ≤ d1) (h12 : d1 ≤ d2)
    (hipb : 0 ≤ a.interest_payable_balance) (hbal : 0 ≤ a.balance) :
    ((a.calculate_interest_payable_balance d1).calculate_interest_payable_balance d2 =
      a.calculate_interest_payable_balance d2) ∧
    ((u.pay_advance 0 d1).get_global_statement d2).2 =
      (u.get_global_statement d2).2 := by
  refine ⟨Advance.calc_chain a d1 d2, ?_⟩
  have hnn : 0 ≤ (a.calculate_interest_payable_balance d1).interest_payable_balance := by
    rw [Advance.calc_ipb]
    have hc : (0:ℚ) ≤ ((d1 - a.updated_at : ℤ) : ℚ) := by
      exact_mod_cast Int.sub_nonneg.mpr h0
    have := mul_nonneg (mul_nonneg hbal dailyRate_nonneg) hc
    linarith
  obtain ⟨fc, advs⟩ := u
  simp only at hu
  subst hu
  rw [pay_advance_zero_amount fc a rest d1 hnn]
  have hst : (a.calculate_interest_payable_balance d1).get_statement d2 =
      a.get_statement d2 := by
    simp only [Advance.get_statement, Advance.calc_chain]
  unfold UserGlobalBalance.get_global_statement
  simp [hst]

/-- Witness for C10 at a concrete one-advance engine. -/
theorem accrual_additive_witness :
    (((⟨1, 0, 0, 1000, 1000, 0, 0⟩ : Advance).calculate_interest_payable_balance 5).calculate_interest_payable_balance 9 =
      (⟨1, 0, 0, 1000, 1000, 0, 0⟩ : Advance).calculate_interest_payable_balance 9) ∧
    ((UserGlobalBalance.pay_advance ⟨0, [⟨1, 0, 0, 1000, 1000, 0, 0⟩]⟩ 0 5).get_global_statement 9).2 =
      (UserGlobalBalance.get_global_statement ⟨0, [⟨1, 0, 0, 1000, 1000, 0, 0⟩]⟩ 9).2 :=
  accrual_additive ⟨0, [⟨1, 0, 0, 1000, 1000, 0, 0⟩]⟩ ⟨1, 0, 0, 1000, 1000, 0, 0⟩ []
    5 9 rfl (by norm_num) (by norm_num) (by norm_num) (by norm_num)

/-! ### Loop lemmas for the two payment phases -/

/-! Loop lemmas for the payment phases -/

lemma payInterestLoop_length (d : Int) :
    ∀ (l : List Advance) (amt : ℚ), (payInterestLoop l amt d).1.length = l.length := by
  intro l
  induction l with
  | nil => intro amt; rfl
  | cons a rest ih =>
    intro amt
    simp only [payInterestLoop]
    split_ifs with h
    · simp
    · simp [ih]

lemma payLoop_length :
    ∀ (l : List Advance) (amt : ℚ), (payLoop l amt).1.length = l.length := by
  intro l
  induction l with
  | nil => intro amt; rfl
  | cons a rest ih =>
    intro amt
    simp only [payLoop]
    split_ifs with h
    · simp
    · simp [ih]

lemma payInterestLoop_all_zero (d : Int) :
    ∀ (l : List Advance) (amt : ℚ), (payInterestLoop l amt d).2 ≠ 0 →
      ∀ x ∈ (payInterestLoop l amt d).1, x.interest_payable_balance = 0 := by
  intro l
  induction l with
  | nil => intro amt _ x hx; simp [payInterestLoop] at hx
  | cons a rest ih =>
    intro amt hne x hx
    simp only [payInterestLoop] at hne hx
    split_ifs at hne hx with h
    · exact absurd h (by simpa using hne)
    · rcases List.mem_cons.mp hx with rfl | hx2
      · exact Advance.pay_interest_rem_ne a amt d h
      · exact ih _ (by simpa using hne) x hx2

lemma payLoop_all_zero :
    ∀ (l : List Advance) (amt : ℚ), (payLoop l amt).2 ≠ 0 →
      ∀ x ∈ (payLoop l amt).1, x.balance = 0 := by
  intro l
  induction l with
  | nil => intro amt _ x hx; simp [payLoop] at hx
  | cons a rest ih =>
    intro amt hne x hx
    simp only [payLoop] at hne hx
    split_ifs at hne hx with h
    · exact absurd h (by simpa using hne)
    · rcases List.mem_cons.mp hx with rfl | hx2
      · exact Advance.pay_rem_ne a amt h
      · exact ih _ (by simpa using hne) x hx2

lemma payInterestLoop_getD_balance (d : Int) :
    ∀ (l : List Advance) (amt : ℚ) (i : Nat),
      ((payInterestLoop l amt d).1.getD i dAdv).balance = (l.getD i dAdv).balance := by
  intro l
  induction l with
  | nil => intro amt i; rfl
  | cons a rest ih =>
    intro amt i
    simp only [payInterestLoop]
    split_ifs with h
    · cases i with
      | zero => simp [Advance.pay_interest_balance]
      | succ k => simp
    · cases i with
      | zero => simp [Advance.pay_interest_balance]
      | succ k => simpa using ih _ k

lemma payLoop_getD_ipb :
    ∀ (l : List Advance) (amt : ℚ) (i : Nat),
      ((payLoop l amt).1.getD i dAdv).interest_payable_balance =
        (l.getD i dAdv).interest_payable_balance := by
  intro l
  induction l with
  | nil => intro amt i; rfl
  | cons a rest ih =>
    intro amt i
    simp only [payLoop]
    split_ifs with h
    · cases i with
      | zero => simp [Advance.pay_fst_ipb]
      | succ k => simp
    · cases i with
      | zero => simp [Advance.pay_fst_ipb]
      | succ k => simpa using ih _ k

lemma payLoop_getD_paid :
    ∀ (l : List Advance) (amt : ℚ) (i : Nat),
      ((payLoop l amt).1.getD i dAdv).interest_paid = (l.getD i dAdv).interest_paid := by
  intro l
  induction l with
  | nil => intro amt i; rfl
  | cons a rest ih =>
    intro amt i
    simp only [payLoop]
    split_ifs with h
    · cases i with
      | zero => simp [Advance.pay_fst_paid]
      | succ k => simp
    · cases i with
      | zero => simp [Advance.pay_fst_paid]
      | succ k => simpa using ih _ k

lemma payLoop_getD_updated :
    ∀ (l : List Advance) (amt : ℚ) (i : Nat),
      ((payLoop l amt).1.getD i dAdv).updated_at = (l.getD i dAdv).updated_at := by
  intro l
  induction l with
  | nil => intro amt i; rfl
  | cons a rest ih =>
    intro amt i
    simp only [payLoop]
    split_ifs with h
    · cases i with
      | zero => simp [Advance.pay_fst_updated]
      | succ k => simp
    · cases i with
      | zero => simp [Advance.pay_fst_updated]
      | succ k => simpa using ih _ k

lemma payLoop_ipb_mem :
    ∀ (l : List Advance) (amt : ℚ), ∀ x ∈ (payLoop l amt).1,
      ∃ y ∈ l, x.interest_payable_balance = y.interest_payable_balance := by
  intro l
  induction l with
  | nil => intro amt x hx; simp [payLoop] at hx
  | cons a rest ih =>
    intro amt x hx
    simp only [payLoop] at hx
    split_ifs at hx with h
    · rcases List.mem_cons.mp hx with rfl | hx2
      · exact ⟨a, List.mem_cons_self a rest, Advance.pay_fst_ipb a amt⟩
      · exact ⟨x, List.mem_cons_of_mem a hx2, rfl⟩
    · rcases List.mem_cons.mp hx with rfl | hx2
      · exact ⟨a, List.mem_cons_self a rest, Advance.pay_fst_ipb a amt⟩
      · obtain ⟨y, hy, hxy⟩ := ih _ x hx2
        exact ⟨y, List.mem_cons_of_mem a hy, hxy⟩

lemma payInterestLoop_touched (d : Int) :
    ∀ (l : List Advance) (amt : ℚ) (j : Nat),
      ((payInterestLoop l amt d).1.getD j dAdv).interest_paid ≠
        (l.getD j dAdv).interest_paid →
      ((payInterestLoop l amt d).1.getD j dAdv).updated_at = d ∧
      ∀ i < j, ((payInterestLoop l amt d).1.getD i dAdv).interest_payable_balance = 0 := by
  intro l
  induction l with
  | nil => intro amt j hj; exact absurd rfl hj
  | cons a rest ih =>
    intro amt j hj
    simp only [payInterestLoop] at hj ⊢
    split_ifs at hj ⊢ with h
    · cases j with
      | zero =>
        refine ⟨by simp [Advance.pay_interest_updated], fun i hi => absurd hi (Nat.not_lt_zero i)⟩
      | succ k => simp at hj
    · cases j with
      | zero =>
        refine ⟨by simp [Advance.pay_interest_updated], fun i hi => absurd hi (Nat.not_lt_zero i)⟩
      | succ k =>
        have hj2 : ((payInterestLoop rest (a.pay_interest amt d).2 d).1.getD k dAdv).interest_paid ≠
            (rest.getD k dAdv).interest_paid := by simpa using hj
        obtain ⟨h1, h2⟩ := ih _ k hj2
        refine ⟨by simpa using h1, ?_⟩
        intro i hi
        cases i with
        | zero => simpa using Advance.pay_interest_rem_ne a amt d h
        | succ m => simpa using h2 m (Nat.lt_of_succ_lt_succ hi)

lemma payLoop_touched :
    ∀ (l : List Advance) (amt : ℚ) (j : Nat),
      ((payLoop l amt).1.getD j dAdv).balance ≠ (l.getD j dAdv).balance →
      ∀ i < j, ((payLoop l amt).1.getD i dAdv).balance = 0 := by
  intro l
  induction l with
  | nil => intro amt j hj; exact absurd rfl hj
  | cons a rest ih =>
    intro amt j hj
    simp only [payLoop] at hj ⊢
    split_ifs at hj ⊢ with h
    · cases j with
      | zero => exact fun i hi => absurd hi (Nat.not_lt_zero i)
      | succ k => simp at hj
    · cases j with
      | zero => exact fun i hi => absurd hi (Nat.not_lt_zero i)
      | succ k =>
        have hj2 : ((payLoop rest (a.pay amt).2).1.getD k dAdv).balance ≠
            (rest.getD k dAdv).balance := by simpa using hj
        have h2 := ih _ k hj2
        intro i hi
        cases i with
        | zero => simpa using Advance.pay_rem_ne a amt h
        | succ m => simpa using h2 m (Nat.lt_of_succ_lt_succ hi)

/-! ### C1: allocation precedence of a payment event -/

lemma pay_advance_length (u : UserGlobalBalance) (amt : ℚ) (d : Int) :
    (u.pay_advance amt d).actives_advances.length = u.actives_advances.length := by
  simp only [UserGlobalBalance.pay_advance]
  split_ifs <;> simp [payLoop_length, payInterestLoop_length]

lemma pay_advance_empty (u : UserGlobalBalance) (amt : ℚ) (d : Int)
    (he : u.actives_advances = []) (ha : 0 < amt) :
    u.pay_advance amt d = ⟨u.overall_payments_for_future + amt, []⟩ := by
  simp [UserGlobalBalance.pay_advance, he, payInterestLoop, payLoop, ha]

lemma pay_advance_credit_changed (u : UserGlobalBalance) (amt : ℚ) (d : Int)
    (hne : (u.pay_advance amt d).overall_payments_for_future ≠
      u.overall_payments_for_future) :
    ∀ x ∈ (u.pay_advance amt d).actives_advances,
      x.interest_payable_balance = 0 ∧ x.balance = 0 := by
  simp only [UserGlobalBalance.pay_advance] at hne ⊢
  split_ifs at hne ⊢ with h1 h2
  · intro x hx
    simp only at hx
    constructor
    · obtain ⟨y, hy, hxy⟩ := payLoop_ipb_mem _ _ x hx
      rw [hxy]
      exact payInterestLoop_all_zero d u.actives_advances amt (ne_of_gt h1) y hy
    · exact payLoop_all_zero _ _ (ne_of_gt h2) x hx
  · simp at hne
  · simp at hne

lemma pay_advance_principal_order (u : UserGlobalBalance) (amt : ℚ) (d : Int)
    (j : Nat)
    (hbj : ((u.pay_advance amt d).actives_advances.getD j dAdv).balance ≠
      (u.actives_advances.getD j dAdv).balance) :
    (∀ x ∈ (u.pay_advance amt d).actives_advances, x.interest_payable_balance = 0) ∧
    ∀ i < j, ((u.pay_advance amt d).actives_advances.getD i dAdv).balance = 0 := by
  simp only [UserGlobalBalance.pay_advance] at hbj ⊢
  split_ifs at hbj ⊢ with h1 h2
  · simp only at hbj ⊢
    rw [← payInterestLoop_getD_balance d u.actives_advances amt j] at hbj
    constructor
    · intro x hx
      obtain ⟨y, hy, hxy⟩ := payLoop_ipb_mem _ _ x hx
      rw [hxy]
      exact payInterestLoop_all_zero d u.actives_advances amt (ne_of_gt h1) y hy
    · exact payLoop_touched _ _ j hbj
  · simp only at hbj ⊢
    rw [← payInterestLoop_getD_balance d u.actives_advances amt j] at hbj
    constructor
    · intro x hx
      obtain ⟨y, hy, hxy⟩ := payLoop_ipb_mem _ _ x hx
      rw [hxy]
      exact payInterestLoop_all_zero d u.actives_advances amt (ne_of_gt h1) y hy
    · exact payLoop_touched _ _ j hbj
  · simp only at hbj
    rw [payInterestLoop_getD_balance] at hbj
    exact absurd rfl hbj

lemma pay_advance_interest_order (u : UserGlobalBalance) (amt : ℚ) (d : Int)
    (j : Nat)
    (hpj : ((u.pay_advance amt d).actives_advances.getD j dAdv).interest_paid ≠
      (u.actives_advances.getD j dAdv).interest_paid) :
    ((u.pay_advance amt d).actives_advances.getD j dAdv).updated_at = d ∧
    ∀ i < j, ((u.pay_advance amt d).actives_advances.getD i dAdv).interest_payable_balance = 0 := by
  simp only [UserGlobalBalance.pay_advance] at hpj ⊢
  split_ifs at hpj ⊢ with h1 h2
  · simp only at hpj ⊢
    rw [payLoop_getD_paid] at hpj
    obtain ⟨hu, hz⟩ := payInterestLoop_touched d u.actives_advances amt j hpj
    refine ⟨?_, ?_⟩
    · rw [payLoop_getD_updated]; exact hu
    · intro i hi; rw [payLoop_getD_ipb]; exact hz i hi
  · simp only at hpj ⊢
    rw [payLoop_getD_paid] at hpj
    obtain ⟨hu, hz⟩ := payInterestLoop_touched d u.actives_advances amt j hpj
    refine ⟨?_, ?_⟩
    · rw [payLoop_getD_updated]; exact hu
    · intro i hi; rw [payLoop_getD_ipb]; exact hz i hi
  · simp only at hpj ⊢
    exact payInterestLoop_touched d u.actives_advances amt j hpj

/-- The allocation-precedence contract of a payment event, observed on the
final state `u.pay_advance a d` against the starting state `u`:
the advance list keeps its length; with no advances the whole amount becomes
future credit; if the future credit changed at all, every advance ends with
zero payable interest and zero principal; if any advance's principal
changed, every advance ends with zero payable interest (interest strictly
precedes principal) and all earlier advances end with zero principal
(creation order within the principal phase); and if any advance's cumulative
paid interest changed, that advance was accrued through `d` and every
earlier advance ends with zero payable interest (creation order within the
interest phase). -/
def PayAllocationSpec (u : UserGlobalBalance) (a : ℚ) (d : Int) : Prop :=
  ((u.pay_advance a d).actives_advances.length = u.actives_advances.length) ∧
  (u.actives_advances = [] →
    u.pay_advance a d = ⟨u.overall_payments_for_future + a, []⟩) ∧
  ((u.pay_advance a d).overall_payments_for_future ≠ u.overall_payments_for_future →
    ∀ x ∈ (u.pay_advance a d).actives_advances,
      x.interest_payable_balance = 0 ∧ x.balance = 0) ∧
  (∀ j : Nat,
    ((u.pay_advance a d).actives_advances.getD j dAdv).balance ≠
        (u.actives_advances.getD j dAdv).balance →
      (∀ x ∈ (u.pay_advance a d).actives_advances, x.interest_payable_balance = 0) ∧
      ∀ i < j, ((u.pay_advance a d).actives_advances.getD i dAdv).balance = 0) ∧
  (∀ j : Nat,
    ((u.pay_advance a d).actives_advances.getD j dAdv).interest_paid ≠
        (u.actives_advances.getD j dAdv).interest_paid →
      ((u.pay_advance a d).actives_advances.getD j dAdv).updated_at = d ∧
      ∀ i < j, ((u.pay_advance a d).actives_advances.getD i dAdv).interest_payable_balance = 0)

/-- C1: for every engine state built from a date-ordered sequence of
positive-amount events, a payment of `a > 0` at date `d` allocates in two
phases over the existing advances in creation order — interest first (each
advance's interest zeroed before the next is touched), then principal (each
zeroed before the next), and nothing reaches the future credit unless every
advance's interest and principal are zero; with zero advances the whole
amount becomes future credit.  See `PayAllocationSpec`. -/
theorem payment_allocation_precedence (u : UserGlobalBalance) (d0 d : Int) (a : ℚ)
    (hr : Reachable u d0) (hd : d0 ≤ d) (ha : 0 < a) : PayAllocationSpec u a d :=
  ⟨pay_advance_length u a d,
   fun he => pay_advance_empty u a d he ha,
   pay_advance_credit_changed u a d,
   pay_advance_principal_order u a d,
   pay_advance_interest_order u a d⟩

/-- Witness for C1 at a concrete reachable one-advance state. -/
theorem payment_allocation_precedence_witness :
    PayAllocationSpec (UserGlobalBalance.create_advance UserGlobalBalance.initial 1000 0) 100 5 :=
  payment_allocation_precedence _ 0 5 100
    (Reachable.adv 1000 0 (Reachable.init 0) (by norm_num) le_rfl) (by norm_num)
    (by norm_num)

/-! ### Reachability invariants (C2) -/

/-- A fully paid advance: zero principal and zero payable interest. -/
def Zeroed (a : Advance) : Prop :=
  a.balance = 0 ∧ a.interest_payable_balance = 0

/-- Per-advance invariant, relative to the date `d` of the latest operation:
the balances are within range and the payable interest covers a possible
one-day look-ahead of `updated_at` (a statement accrues through `d + 1`, so a
later same-date event accrues a −1-day period; the recorded interest always
contains at least the corresponding amount). -/
def AdvInv (d : Int) (a : Advance) : Prop :=
  0 ≤ a.balance ∧ a.balance ≤ a.initial_amount ∧
  0 ≤ a.interest_payable_balance ∧ 0 ≤ a.interest_paid ∧
  a.created_at ≤ a.updated_at ∧ a.created_at ≤ d ∧ a.updated_at ≤ d + 1 ∧
  a.balance * dailyRate * ((a.updated_at - d : Int) : ℚ) ≤ a.interest_payable_balance

/-- Engine invariant: nonnegative credit, a positive credit only coexists
with fully paid advances, and every advance satisfies `AdvInv`. -/
def Inv (u : UserGlobalBalance) (d : Int) : Prop :=
  0 ≤ u.overall_payments_for_future ∧
  (0 < u.overall_payments_for_future → ∀ x ∈ u.actives_advances, Zeroed x) ∧
  ∀ x ∈ u.actives_advances, AdvInv d x

lemma advInv_mono {a : Advance} {d e : Int} (h : AdvInv d a) (hde : d ≤ e) :
    AdvInv e a := by
  obtain ⟨h1, h2, h3, h4, h5, h6, h7, h8⟩ := h
  have hB : (0:ℚ) ≤ a.balance * dailyRate := mul_nonneg h1 dailyRate_nonneg
  refine ⟨h1, h2, h3, h4, h5, by omega, by omega, ?_⟩
  have hcast : ((a.updated_at - e : ℤ) : ℚ) ≤ ((a.updated_at - d : ℤ) : ℚ) := by
    have : (a.updated_at - e : ℤ) ≤ a.updated_at - d := by omega
    exact_mod_cast this
  have := mul_le_mul_of_nonneg_left hcast hB
  linarith

lemma accrue_inv {a : Advance} {d e eP : Int} (h : AdvInv d a) (hde : d ≤ e)
    (heP1 : e ≤ eP) (heP2 : eP ≤ e + 1) :
    AdvInv e (a.calculate_interest_payable_balance eP) := by
  obtain ⟨h1, h2, h3, h4, h5, h6, h7, h8⟩ := h
  have hB : (0:ℚ) ≤ a.balance * dailyRate := mul_nonneg h1 dailyRate_nonneg
  have k1 : a.balance * dailyRate * ((a.updated_at - d : ℤ) : ℚ) +
      a.balance * dailyRate * ((eP - a.updated_at : ℤ) : ℚ) =
      a.balance * dailyRate * ((eP - d : ℤ) : ℚ) := by push_cast; ring
  have k2 : a.balance * dailyRate * ((eP - d : ℤ) : ℚ) -
      a.balance * dailyRate * ((eP - e : ℤ) : ℚ) =
      a.balance * dailyRate * ((e - d : ℤ) : ℚ) := by push_cast; ring
  have k3 : (0:ℚ) ≤ a.balance * dailyRate * ((e - d : ℤ) : ℚ) := by
    refine mul_nonneg hB ?_
    exact_mod_cast (by omega : (0:ℤ) ≤ e - d)
  have k4 : (0:ℚ) ≤ a.balance * dailyRate * ((eP - d : ℤ) : ℚ) := by
    refine mul_nonneg hB ?_
    exact_mod_cast (by omega : (0:ℤ) ≤ eP - d)
  refine ⟨?_, ?_, ?_, ?_, ?_, ?_, ?_, ?_⟩ <;>
    simp only [Advance.calc_balance, Advance.calc_initial, Advance.calc_ipb,
      Advance.calc_paid, Advance.calc_created, Advance.calc_updated]
  · exact h1
  · exact h2
  · linarith
  · exact h4
  · omega
  · omega
  · omega
  · linarith

lemma pay_interest_inv {a : Advance} {d e : Int} (amt : ℚ) (h : AdvInv d a)
    (hde : d ≤ e) (hamt : 0 ≤ amt) :
    AdvInv e (a.pay_interest amt e).1 ∧ 0 ≤ (a.pay_interest amt e).2 ∧
      (a.pay_interest amt e).2 ≤ amt := by
  have hb := accrue_inv h hde le_rfl (by omega)
  obtain ⟨b1, b2, b3, b4, b5, b6, b7, b8⟩ := hb
  have h0 : (((e - e : Int)) : ℚ) = 0 := by norm_num
  simp only [Advance.pay_interest]
  split_ifs with hc
  · refine ⟨⟨b1, b2, ?_, ?_, b5, b6, ?_, ?_⟩, le_rfl, hamt⟩
    · show (0:ℚ) ≤
        (a.calculate_interest_payable_balance e).interest_payable_balance - amt
      linarith
    · show (0:ℚ) ≤ (a.calculate_interest_payable_balance e).interest_paid + amt
      linarith
    · show (e:Int) ≤ e + 1
      omega
    · show (a.calculate_interest_payable_balance e).balance * dailyRate *
          (((e - e : Int)) : ℚ) ≤
        (a.calculate_interest_payable_balance e).interest_payable_balance - amt
      rw [h0]
      simp only [mul_zero]
      linarith
  · push_neg at hc
    refine ⟨⟨b1, b2, le_rfl, ?_, b5, b6, ?_, ?_⟩, ?_, ?_⟩
    · show (0:ℚ) ≤ (a.calculate_interest_payable_balance e).interest_paid +
        (a.calculate_interest_payable_balance e).interest_payable_balance
      linarith
    · show (e:Int) ≤ e + 1
      omega
    · show (a.calculate_interest_payable_balance e).balance * dailyRate *
          (((e - e : Int)) : ℚ) ≤ 0
      rw [h0]
      simp only [mul_zero]
      exact le_rfl
    · show (0:ℚ) ≤ amt -
        (a.calculate_interest_payable_balance e).interest_payable_balance
      linarith
    · show amt - (a.calculate_interest_payable_balance e).interest_payable_balance
          ≤ amt
      linarith

lemma pay_inv {a : Advance} {d : Int} (amt : ℚ) (h : AdvInv d a)
    (hamt : 0 ≤ amt) :
    AdvInv d (a.pay amt).1 ∧ 0 ≤ (a.pay amt).2 ∧ (a.pay amt).2 ≤ amt := by
  obtain ⟨h1, h2, h3, h4, h5, h6, h7, h8⟩ := h
  simp only [Advance.pay]
  split_ifs with hc
  · refine ⟨⟨?_, ?_, h3, h4, h5, h6, h7, ?_⟩, le_rfl, hamt⟩
    · show (0:ℚ) ≤ a.balance - amt
      linarith
    · show a.balance - amt ≤ a.initial_amount
      linarith
    · show (a.balance - amt) * dailyRate * ((a.updated_at - d : Int) : ℚ) ≤
        a.interest_payable_balance
      rcases le_or_lt ((a.updated_at - d : Int) : ℚ) 0 with hneg | hpos
      · have := mul_nonpos_of_nonneg_of_nonpos
          (mul_nonneg (by linarith : (0:ℚ) ≤ a.balance - amt) dailyRate_nonneg)
          hneg
        linarith
      · have key : a.balance * dailyRate * ((a.updated_at - d : Int) : ℚ) -
            (a.balance - amt) * dailyRate * ((a.updated_at - d : Int) : ℚ) =
            amt * dailyRate * ((a.updated_at - d : Int) : ℚ) := by ring
        have hnn : (0:ℚ) ≤ amt * dailyRate * ((a.updated_at - d : Int) : ℚ) :=
          mul_nonneg (mul_nonneg hamt dailyRate_nonneg) (le_of_lt hpos)
        linarith
  · push_neg at hc
    refine ⟨⟨le_rfl, ?_, h3, h4, h5, h6, h7, ?_⟩, ?_, ?_⟩
    · show (0:ℚ) ≤ a.initial_amount
      linarith
    · show (0:ℚ) * dailyRate * ((a.updated_at - d : Int) : ℚ) ≤
        a.interest_payable_balance
      simp only [zero_mul]
      exact h3
    · show (0:ℚ) ≤ amt - a.balance
      linarith
    · show amt - a.balance ≤ amt
      linarith

lemma payInterestLoop_inv {d e : Int} (hde : d ≤ e) :
    ∀ (l : List Advance) (amt : ℚ), 0 ≤ amt → (∀ x ∈ l, AdvInv d x) →
      (∀ x ∈ (payInterestLoop l amt e).1, AdvInv e x) ∧
      0 ≤ (payInterestLoop l amt e).2 ∧ (payInterestLoop l amt e).2 ≤ amt := by
  intro l
  induction l with
  | nil =>
    intro amt hamt _
    exact ⟨by simp [payInterestLoop], hamt, le_rfl⟩
  | cons a rest ih =>
    intro amt hamt hall
    have hhead := pay_interest_inv amt (hall a (List.mem_cons_self a rest)) hde hamt
    simp only [payInterestLoop]
    split_ifs with h
    · refine ⟨?_, by simpa [h] using hhead.2.1, by simpa [h] using hhead.2.2⟩
      intro x hx
      rcases List.mem_cons.mp hx with rfl | hx2
      · exact hhead.1
      · exact advInv_mono (hall x (List.mem_cons_of_mem a hx2)) hde
    · have hrest := ih (a.pay_interest amt e).2 hhead.2.1
        (fun x hx => hall x (List.mem_cons_of_mem a hx))
      refine ⟨?_, hrest.2.1, le_trans hrest.2.2 hhead.2.2⟩
      intro x hx
      rcases List.mem_cons.mp hx with rfl | hx2
      · exact hhead.1
      · exact hrest.1 x hx2

lemma payLoop_inv {d : Int} :
    ∀ (l : List Advance) (amt : ℚ), 0 ≤ amt → (∀ x ∈ l, AdvInv d x) →
      (∀ x ∈ (payLoop l amt).1, AdvInv d x) ∧
      0 ≤ (payLoop l amt).2 ∧ (payLoop l amt).2 ≤ amt := by
  intro l
  induction l with
  | nil =>
    intro amt hamt _
    exact ⟨by simp [payLoop], hamt, le_rfl⟩
  | cons a rest ih =>
    intro amt hamt hall
    have hhead := pay_inv amt (hall a (List.mem_cons_self a rest)) hamt
    simp only [payLoop]
    split_ifs with h
    · refine ⟨?_, by simpa [h] using hhead.2.1, by simpa [h] using hhead.2.2⟩
      intro x hx
      rcases List.mem_cons.mp hx with rfl | hx2
      · exact hhead.1
      · exact hall x (List.mem_cons_of_mem a hx2)
    · have hrest := ih (a.pay amt).2 hhead.2.1
        (fun x hx => hall x (List.mem_cons_of_mem a hx))
      refine ⟨?_, hrest.2.1, le_trans hrest.2.2 hhead.2.2⟩
      intro x hx
      rcases List.mem_cons.mp hx with rfl | hx2
      · exact hhead.1
      · exact hrest.1 x hx2

lemma calc_zeroed {a : Advance} (e : Int) (hz : Zeroed a) :
    Zeroed (a.calculate_interest_payable_balance e) := by
  obtain ⟨hb, hi⟩ := hz
  refine ⟨hb, ?_⟩
  rw [Advance.calc_ipb, hb, hi]
  ring

lemma pay_interest_zeroed {a : Advance} (amt : ℚ) (e : Int) (hz : Zeroed a)
    (hamt : 0 ≤ amt) :
    Zeroed (a.pay_interest amt e).1 ∧ 0 ≤ (a.pay_interest amt e).2 := by
  have hbz := calc_zeroed e hz
  obtain ⟨hb, hi⟩ := hbz
  simp only [Advance.pay_interest]
  split_ifs with hc
  · have hamt0 : amt = 0 := le_antisymm (by rw [hi] at hc; exact hc) hamt
    subst hamt0
    refine ⟨⟨hb, ?_⟩, le_rfl⟩
    show (a.calculate_interest_payable_balance e).interest_payable_balance - 0 = 0
    rw [hi]
    norm_num
  · push_neg at hc
    refine ⟨⟨hb, rfl⟩, ?_⟩
    show (0:ℚ) ≤ amt -
      (a.calculate_interest_payable_balance e).interest_payable_balance
    rw [hi] at hc ⊢
    linarith

lemma pay_zeroed {a : Advance} (amt : ℚ) (hz : Zeroed a) (hamt : 0 ≤ amt) :
    Zeroed (a.pay amt).1 ∧ 0 ≤ (a.pay amt).2 := by
  obtain ⟨hb, hi⟩ := hz
  simp only [Advance.pay]
  split_ifs with hc
  · have hamt0 : amt = 0 := le_antisymm (by rw [hb] at hc; exact hc) hamt
    subst hamt0
    refine ⟨⟨?_, hi⟩, le_rfl⟩
    show a.balance - 0 = 0
    rw [hb]
    norm_num
  · push_neg at hc
    refine ⟨⟨rfl, hi⟩, ?_⟩
    show (0:ℚ) ≤ amt - a.balance
    rw [hb] at hc ⊢
    linarith

lemma payInterestLoop_zeroed (e : Int) :
    ∀ (l : List Advance) (amt : ℚ), 0 ≤ amt → (∀ x ∈ l, Zeroed x) →
      ∀ x ∈ (payInterestLoop l amt e).1, Zeroed x := by
  intro l
  induction l with
  | nil => intro amt _ _ x hx; simp [payInterestLoop] at hx
  | cons a rest ih =>
    intro amt hamt hall x hx
    have hhead := pay_interest_zeroed amt e (hall a (List.mem_cons_self a rest)) hamt
    simp only [payInterestLoop] at hx
    split_ifs at hx with h
    · rcases List.mem_cons.mp hx with rfl | hx2
      · exact hhead.1
      · exact hall x (List.mem_cons_of_mem a hx2)
    · rcases List.mem_cons.mp hx with rfl | hx2
      · exact hhead.1
      · exact ih _ hhead.2 (fun y hy => hall y (List.mem_cons_of_mem a hy)) x hx2

lemma payLoop_zeroed :
    ∀ (l : List Advance) (amt : ℚ), 0 ≤ amt → (∀ x ∈ l, Zeroed x) →
      ∀ x ∈ (payLoop l amt).1, Zeroed x := by
  intro l
  induction l with
  | nil => intro amt _ _ x hx; simp [payLoop] at hx
  | cons a rest ih =>
    intro amt hamt hall x hx
    have hhead := pay_zeroed amt (hall a (List.mem_cons_self a rest)) hamt
    simp only [payLoop] at hx
    split_ifs at hx with h
    · rcases List.mem_cons.mp hx with rfl | hx2
      · exact hhead.1
      · exact hall x (List.mem_cons_of_mem a hx2)
    · rcases List.mem_cons.mp hx with rfl | hx2
      · exact hhead.1
      · exact ih _ hhead.2 (fun y hy => hall y (List.mem_cons_of_mem a hy)) x hx2

lemma pay_advance_inv {u : UserGlobalBalance} {d e : Int} (amt : ℚ)
    (h : Inv u d) (hde : d ≤ e) (hamt : 0 ≤ amt) :
    Inv (u.pay_advance amt e) e := by
  obtain ⟨hfc, hcz, hadv⟩ := h
  have hpil := payInterestLoop_inv hde u.actives_advances amt hamt hadv
  simp only [UserGlobalBalance.pay_advance]
  split_ifs with h1 h2
  · have hpl := payLoop_inv _ _ hpil.2.1 hpil.1
    refine ⟨?_, ?_, hpl.1⟩
    · show (0:ℚ) ≤ u.overall_payments_for_future +
        (payLoop (payInterestLoop u.actives_advances amt e).1
          (payInterestLoop u.actives_advances amt e).2).2
      have := hpl.2.1
      linarith
    · intro _ x hx
      refine ⟨payLoop_all_zero _ _ (ne_of_gt h2) x hx, ?_⟩
      obtain ⟨y, hy, hxy⟩ := payLoop_ipb_mem _ _ x hx
      rw [hxy]
      exact payInterestLoop_all_zero e u.actives_advances amt (ne_of_gt h1) y hy
  · have hpl := payLoop_inv _ _ hpil.2.1 hpil.1
    refine ⟨hfc, ?_, hpl.1⟩
    intro h0 x hx
    have hz0 := hcz h0
    have hz1 := payInterestLoop_zeroed e u.actives_advances amt hamt hz0
    have hz2 := payLoop_zeroed _ _ hpil.2.1 hz1
    obtain ⟨hzb, hzi⟩ := hz2 x hx
    exact ⟨hzb, hzi⟩
  · refine ⟨hfc, ?_, hpil.1⟩
    intro h0 x hx
    exact payInterestLoop_zeroed e u.actives_advances amt hamt (hcz h0) x hx

lemma create_advance_inv {u : UserGlobalBalance} {d e : Int} (amt : ℚ)
    (h : Inv u d) (hde : d ≤ e) (hamt : 0 < amt) :
    Inv (u.create_advance amt e) e := by
  obtain ⟨hfc, hcz, hadv⟩ := h
  have hnew : AdvInv e
      (⟨u.actives_advances.length + 1, e, e, amt, amt, 0, 0⟩ : Advance) := by
    have h0 : (((e - e : Int)) : ℚ) = 0 := by norm_num
    refine ⟨le_of_lt hamt, le_rfl, le_rfl, le_rfl, le_rfl, le_rfl, ?_, ?_⟩
    · show (e : Int) ≤ e + 1
      omega
    · show amt * dailyRate * (((e - e : Int)) : ℚ) ≤ 0
      rw [h0]
      simp
  have hall : ∀ x ∈ u.actives_advances ++
      [(⟨u.actives_advances.length + 1, e, e, amt, amt, 0, 0⟩ : Advance)],
      AdvInv e x := by
    intro x hx
    rcases List.mem_append.mp hx with hx1 | hx2
    · exact advInv_mono (hadv x hx1) hde
    · rw [List.mem_singleton] at hx2
      subst hx2
      exact hnew
  simp only [UserGlobalBalance.create_advance]
  split_ifs with h1
  · refine pay_advance_inv _ ?_ le_rfl (le_of_lt h1)
    exact ⟨le_rfl, fun h0 => absurd h0 (lt_irrefl 0), hall⟩
  · refine ⟨hfc, ?_, hall⟩
    intro h0
    exact absurd h0 h1

lemma statement_inv {u : UserGlobalBalance} {d e : Int} (h : Inv u d)
    (hde : d ≤ e) : Inv (u.get_global_statement e).1 e := by
  obtain ⟨hfc, hcz, hadv⟩ := h
  simp only [UserGlobalBalance.get_global_statement]
  refine ⟨hfc, ?_, ?_⟩
  · intro h0 x hx
    simp only [List.map_map, List.mem_map] at hx
    obtain ⟨y, hy, rfl⟩ := hx
    exact calc_zeroed (e + 1) (hcz h0 y hy)
  · intro x hx
    simp only [List.map_map, List.mem_map] at hx
    obtain ⟨y, hy, rfl⟩ := hx
    exact accrue_inv (hadv y hy) hde (by omega) (by omega)

lemma reachable_inv {u : UserGlobalBalance} {d : Int} (h : Reachable u d) :
    Inv u d := by
  induction h with
  | init d =>
    refine ⟨le_rfl, fun h0 => absurd h0 (lt_irrefl 0), ?_⟩
    intro x hx
    simp [UserGlobalBalance.initial] at hx
  | adv a e hr hpos hde ih => exact create_advance_inv a ih hde hpos
  | pay a e hr hpos hde ih => exact pay_advance_inv a ih hde (le_of_lt hpos)
  | stmt e hr hde ih => exact statement_inv ih hde

/-- C2: in every engine state reachable by advance and payment events with
positive amounts in non-decreasing date order (statement queries included),
every advance has a nonnegative principal balance and payable interest, its
principal never exceeds the initial amount, `updated_at ≥ created_at`, and
the engine's future credit is nonnegative. -/
theorem reachable_claimed_invariants (u : UserGlobalBalance) (d : Int)
    (h : Reachable u d) :
    0 ≤ u.overall_payments_for_future ∧
    ∀ x ∈ u.actives_advances, 0 ≤ x.balance ∧ 0 ≤ x.interest_payable_balance ∧
      x.balance ≤ x.initial_amount ∧ x.created_at ≤ x.updated_at := by
  obtain ⟨hfc, -, hadv⟩ := reachable_inv h
  refine ⟨hfc, fun x hx => ?_⟩
  obtain ⟨a1, a2, a3, a4, a5, -, -, -⟩ := hadv x hx
  exact ⟨a1, a3, a2, a5⟩

/-- Witness for C2 at the state reached by Scenario A + B. -/
theorem reachable_claimed_invariants_witness :
    0 ≤ (UserGlobalBalance.pay_advance
        (UserGlobalBalance.create_advance UserGlobalBalance.initial 1000 737791)
        500 737805).overall_payments_for_future ∧
    ∀ x ∈ (UserGlobalBalance.pay_advance
        (UserGlobalBalance.create_advance UserGlobalBalance.initial 1000 737791)
        500 737805).actives_advances,
      0 ≤ x.balance ∧ 0 ≤ x.interest_payable_balance ∧
      x.balance ≤ x.initial_amount ∧ x.created_at ≤ x.updated_at :=
  reachable_claimed_invariants _ 737805
    (Reachable.pay 500 737805
      (Reachable.adv 1000 737791 (Reachable.init 737791) (by norm_num) le_rfl)
      (by norm_num) (by norm_num))

/-! ### C3: carry-forward of the future credit into a new advance -/

lemma pay_interest_zeroed_pos {x : Advance} (amt : ℚ) (d : Int) (hz : Zeroed x)
    (hamt : 0 < amt) :
    x.pay_interest amt d = ({ x with updated_at := d }, amt) := by
  have hci : (x.calculate_interest_payable_balance d).interest_payable_balance = 0 :=
    (calc_zeroed d hz).2
  simp only [Advance.pay_interest]
  rw [if_neg (by rw [hci]; linarith)]
  simp only [Prod.mk.injEq]
  constructor
  · ext <;> simp [hci, hz.2]
  · rw [hci]
    ring

lemma pay_zeroed_pos {x : Advance} (amt : ℚ) (hz : Zeroed x) (hamt : 0 < amt) :
    x.pay amt = (x, amt) := by
  simp only [Advance.pay]
  rw [if_neg (by rw [hz.1]; linarith)]
  simp only [Prod.mk.injEq]
  constructor
  · ext <;> simp [hz.1]
  · rw [hz.1]
    ring

lemma payInterestLoop_snoc_zeroed (d : Int) :
    ∀ (l : List Advance) (y : Advance) (amt : ℚ), 0 < amt →
      (∀ x ∈ l, Zeroed x) →
      payInterestLoop (l ++ [y]) amt d =
        ((l.map fun x => { x with updated_at := d }) ++
            [(y.pay_interest amt d).1],
         (y.pay_interest amt d).2) := by
  intro l
  induction l with
  | nil =>
    intro y amt hamt _
    simp only [List.nil_append, List.map_nil, payInterestLoop]
    split_ifs with h
    · simp [h]
    · rfl
  | cons a rest ih =>
    intro y amt hamt hall
    have hza := hall a (List.mem_cons_self a rest)
    have hpa := pay_interest_zeroed_pos amt d hza hamt
    simp only [List.cons_append, payInterestLoop, hpa]
    rw [if_neg (by simpa using ne_of_gt hamt)]
    simp only [List.append_eq]
    rw [ih y amt hamt (fun x hx => hall x (List.mem_cons_of_mem a hx))]
    simp

lemma payLoop_snoc_zeroed :
    ∀ (l : List Advance) (y : Advance) (amt : ℚ), 0 < amt →
      (∀ x ∈ l, Zeroed x) →
      payLoop (l ++ [y]) amt = (l ++ [(y.pay amt).1], (y.pay amt).2) := by
  intro l
  induction l with
  | nil =>
    intro y amt hamt _
    simp only [List.nil_append, payLoop]
    split_ifs with h
    · simp [h]
    · rfl
  | cons a rest ih =>
    intro y amt hamt hall
    have hza := hall a (List.mem_cons_self a rest)
    have hpa := pay_zeroed_pos amt hza hamt
    simp only [List.cons_append, payLoop, hpa]
    rw [if_neg (by simpa using ne_of_gt hamt)]
    simp only [List.append_eq]
    rw [ih y amt hamt (fun x hx => hall x (List.mem_cons_of_mem a hx))]

/-- C3: when an Advance event of amount `b > 0` arrives while the future
credit is `c > 0`, the whole former credit — not more, not less — is pushed
through the two-phase payment procedure; since a reachable state with a
positive credit has every existing advance fully paid, the credit lands
entirely on the new advance: the earlier advances only have `updated_at`
moved to the event date, the new advance's balance is `b − c` capped below
at zero, and the credit afterwards is exactly the remainder `c − b` capped
below at zero (so 0 unless the new advance's capacity is smaller than the
credit). -/
theorem carry_forward (u : UserGlobalBalance) (d0 d : Int) (c b : ℚ)
    (hr : Reachable u d0) (hd : d0 ≤ d) (hc : u.overall_payments_for_future = c)
    (hcpos : 0 < c) (hb : 0 < b) :
    u.create_advance b d =
      ⟨max (c - b) 0,
       u.actives_advances.map (fun x => { x with updated_at := d }) ++
         [⟨u.actives_advances.length + 1, d, d, b, max (b - c) 0, 0, 0⟩]⟩ := by
  have hz : ∀ x ∈ u.actives_advances, Zeroed x :=
    (reachable_inv hr).2.1 (by rw [hc]; exact hcpos)
  obtain ⟨fc, advs⟩ := u
  simp only at hc hz ⊢
  subst hc
  set newA : Advance := ⟨advs.length + 1, d, d, b, b, 0, 0⟩ with hnewA
  have hcalc : newA.calculate_interest_payable_balance d = newA := by
    ext <;> simp [Advance.calc_ipb, hnewA]
  have hpi : newA.pay_interest fc d = (newA, fc) := by
    simp only [Advance.pay_interest, hcalc]
    rw [if_neg (show ¬ fc ≤ newA.interest_payable_balance by
      show ¬ fc ≤ (0:ℚ); linarith)]
    simp only [Prod.mk.injEq]
    constructor
    · ext <;> simp [hnewA]
    · show fc - (0:ℚ) = fc
      ring
  have hz2 : ∀ x ∈ advs.map (fun x => { x with updated_at := d }), Zeroed x := by
    intro x hx
    obtain ⟨y, hy, rfl⟩ := List.mem_map.mp hx
    exact ⟨(hz y hy).1, (hz y hy).2⟩
  simp only [UserGlobalBalance.create_advance]
  rw [if_pos (show (0:ℚ) < fc from hcpos)]
  simp only [UserGlobalBalance.pay_advance]
  rw [payInterestLoop_snoc_zeroed d advs newA fc hcpos hz, hpi]
  rcases le_or_lt fc b with hcb | hbc
  · have hpay : newA.pay fc = (⟨advs.length + 1, d, d, b, b - fc, 0, 0⟩, 0) := by
      simp only [Advance.pay]
      rw [if_pos (show fc ≤ newA.balance from hcb)]
    rw [if_pos (show (0:ℚ) < fc from hcpos)]
    rw [payLoop_snoc_zeroed (advs.map fun x => { x with updated_at := d }) newA fc
      hcpos hz2, hpay]
    rw [if_neg (show ¬ ((0:ℚ) < 0) from lt_irrefl 0)]
    rw [max_eq_right (by linarith : fc - b ≤ (0:ℚ)),
      max_eq_left (by linarith : (0:ℚ) ≤ b - fc)]
  · have hpay : newA.pay fc = (⟨advs.length + 1, d, d, b, 0, 0, 0⟩, fc - b) := by
      simp only [Advance.pay]
      rw [if_neg (show ¬ fc ≤ newA.balance by show ¬ fc ≤ b; linarith)]
    rw [if_pos (show (0:ℚ) < fc from hcpos)]
    rw [payLoop_snoc_zeroed (advs.map fun x => { x with updated_at := d }) newA fc
      hcpos hz2, hpay]
    rw [if_pos (show (0:ℚ) < fc - b by linarith)]
    rw [max_eq_left (by linarith : (0:ℚ) ≤ fc - b),
      max_eq_right (by linarith : b - fc ≤ (0:ℚ))]
    norm_num

/-- Witness for C3: a 200 payment into an empty ledger becomes credit; a
1000 advance then absorbs it, leaving balance 800 and credit 0. -/
theorem carry_forward_witness :
    UserGlobalBalance.create_advance
        (UserGlobalBalance.pay_advance UserGlobalBalance.initial 200 0) 1000 3 =
      ⟨0, [⟨1, 3, 3, 1000, 800, 0, 0⟩]⟩ := by
  have h := carry_forward
    (UserGlobalBalance.pay_advance UserGlobalBalance.initial 200 0) 0 3 200 1000
    (Reachable.pay 200 0 (Reachable.init 0) (by norm_num) le_rfl)
    (by norm_num)
    (by norm_num [UserGlobalBalance.pay_advance, payInterestLoop, payLoop,
      UserGlobalBalance.initial])
    (by norm_num) (by norm_num)
  rw [h]
  norm_num [UserGlobalBalance.pay_advance, payInterestLoop, payLoop,
    UserGlobalBalance.initial, max_def]

end Ledger
